import Mathlib

/-!
Verification of the job-orchestration and transcript-driven media export
engine of the Podfree editor (`app/server.py`).

The embedding is shallow: Python dict records become Lean structures,
Python floats become exact rationals (no rounding is relevant to the
properties below), the mutable job store becomes explicit state passing,
and mutable Python list objects (the per-job `logs` lists, which are
shared by reference between the store and the shallow `dict(job)` copies
returned by `get_job`/`list_jobs`) become indices into an explicit heap of
lists.  External effects (ffmpeg invocations, the filesystem) are modelled
by environments describing their outcomes and by event traces recording
which effects the code performs.
-/

namespace Podfree

/-! ## SegmentBuilder (`build_segments`, server.py lines 878-922) -/

/-- One word of the edited transcript, as supplied to `build_segments`.
The Python code reads the record with `word.get('deleted', False)`,
`word['start']` and `word['end']`; the `deleted` key may be absent, which
the embedding represents with `Option Bool`. -/
structure EditedWord where
  start : ℚ
  «end» : ℚ
  deleted : Option Bool
deriving DecidableEq

/-- A keep-interval produced by `build_segments` and consumed by the
export functions: a dict with keys `start` and `end`. -/
structure Segment where
  start : ℚ
  «end» : ℚ
deriving DecidableEq

/-- `word.get('deleted', False)` -/
def wordDeleted (w : EditedWord) : Bool :=
  w.deleted.getD false

/-- One iteration of the loop body of `build_segments`: the accumulator is
the pair of the `segments` list built so far and the optional
`current_segment`. -/
def buildStep (acc : List Segment × Option Segment) (word : EditedWord) :
    List Segment × Option Segment :=
  if wordDeleted word then
    match acc.2 with
    | some seg => (acc.1 ++ [seg], none)
    | none => (acc.1, none)
  else
    match acc.2 with
    | none => (acc.1, some { start := word.start, «end» := word.«end» })
    | some seg => (acc.1, some { seg with «end» := word.«end» })

/-- `build_segments` (server.py lines 878-922): fold the loop body over the
words, then append the still-open segment if any. -/
def build_segments (edited_words : List EditedWord) : List Segment :=
  let r := edited_words.foldl buildStep ([], none)
  r.1 ++ r.2.toList

example :
    build_segments
      [⟨0, 1, some false⟩, ⟨1, 2, some true⟩, ⟨2, 3, some false⟩, ⟨3, 4, some false⟩]
      = [⟨0, 1⟩, ⟨2, 4⟩] := by decide

example : build_segments [] = [] := by decide

example : build_segments [⟨0, 1, some true⟩, ⟨1, 2, some true⟩] = [] := by decide

/-! Specification-side description of `build_segments`: the maximal runs of
consecutive non-deleted words. `keepRuns` returns each run as a pair of its
first word and the remaining words of the run, which makes non-emptiness of
every run structural. -/

/-- The end of the last word of the run whose first word ends at `e` and
whose remaining words are `r`. -/
def lastEnd (e : ℚ) (r : List EditedWord) : ℚ :=
  match r.getLast? with
  | some u => u.«end»
  | none => e

/-- The segment a maximal run contributes: from the start of the first word
of the run to the end of its last word. -/
def runSegment (w : EditedWord) (r : List EditedWord) : Segment :=
  { start := w.start, «end» := lastEnd w.«end» r }

/-- The maximal runs of consecutive non-deleted words, in input order, each
as (first word, rest of the run). -/
def keepRuns : List EditedWord → List (EditedWord × List EditedWord)
  | [] => []
  | w :: ws =>
    if wordDeleted w then keepRuns ws
    else (w, ws.takeWhile (fun u => !wordDeleted u)) ::
      keepRuns (ws.dropWhile (fun u => !wordDeleted u))
termination_by l => l.length
decreasing_by
  · simp only [List.length_cons]; omega
  · have := (List.dropWhile_suffix (l := ws) (fun u => !wordDeleted u)).sublist.length_le
    simp only [List.length_cons]; omega

theorem keepRuns_nil : keepRuns [] = [] := by
  simp [keepRuns]

theorem keepRuns_cons_del (w : EditedWord) (ws : List EditedWord)
    (h : wordDeleted w = true) : keepRuns (w :: ws) = keepRuns ws := by
  rw [keepRuns]; simp [h]

theorem keepRuns_cons_keep (w : EditedWord) (ws : List EditedWord)
    (h : wordDeleted w = false) :
    keepRuns (w :: ws)
      = (w, ws.takeWhile (fun u => !wordDeleted u)) ::
          keepRuns (ws.dropWhile (fun u => !wordDeleted u)) := by
  rw [keepRuns]; simp [h]

theorem lastEnd_cons (e : ℚ) (w : EditedWord) (r : List EditedWord) :
    lastEnd e (w :: r) = lastEnd w.«end» r := by
  cases r with
  | nil => simp [lastEnd]
  | cons u t =>
    have h1 : (u :: t).getLast? = some ((u :: t).getLast (List.cons_ne_nil u t)) :=
      List.getLast?_eq_getLast (u :: t) (List.cons_ne_nil u t)
    simp [lastEnd, List.getLast?_cons_cons, h1]

/-- Closing out the fold state of `build_segments`: the accumulated segment
list followed by the still-open segment, if any. -/
def finishAcc (acc : List Segment × Option Segment) : List Segment :=
  acc.1 ++ acc.2.toList

/-- Characterization of the `build_segments` fold in terms of the maximal
runs of non-deleted words, simultaneously for the closed and the open
accumulator state. -/
theorem foldl_buildStep_runs (ws : List EditedWord) :
    (∀ segs : List Segment,
        finishAcc (ws.foldl buildStep (segs, none))
          = segs ++ (keepRuns ws).map (fun p => runSegment p.1 p.2))
    ∧ (∀ (segs : List Segment) (s e : ℚ),
        finishAcc (ws.foldl buildStep (segs, some ⟨s, e⟩))
          = segs ++ { start := s, «end» := lastEnd e (ws.takeWhile (fun u => !wordDeleted u)) } ::
              (keepRuns (ws.dropWhile (fun u => !wordDeleted u))).map
                (fun p => runSegment p.1 p.2)) := by
  induction ws with
  | nil =>
    refine ⟨fun segs => ?_, fun segs s e => ?_⟩
    · simp [finishAcc, keepRuns_nil]
    · simp [finishAcc, keepRuns_nil, lastEnd]
  | cons w ws ih =>
    obtain ⟨ihN, ihS⟩ := ih
    refine ⟨fun segs => ?_, fun segs s e => ?_⟩
    · by_cases hw : wordDeleted w
      · have hstep : buildStep (segs, none) w = (segs, none) := by
          simp [buildStep, hw]
        rw [List.foldl_cons, hstep, keepRuns_cons_del w ws hw, ihN]
      · have hw' : wordDeleted w = false := by simpa using hw
        have hstep : buildStep (segs, none) w
            = (segs, some { start := w.start, «end» := w.«end» }) := by
          simp [buildStep, hw']
        rw [List.foldl_cons, hstep, keepRuns_cons_keep w ws hw', ihS]
        simp [runSegment]
    · by_cases hw : wordDeleted w
      · have hstep : buildStep (segs, some ⟨s, e⟩) w = (segs ++ [⟨s, e⟩], none) := by
          simp [buildStep, hw]
        rw [List.foldl_cons, hstep, ihN]
        have ht : (w :: ws).takeWhile (fun u => !wordDeleted u) = [] := by
          simp [List.takeWhile, hw]
        have hd : (w :: ws).dropWhile (fun u => !wordDeleted u) = w :: ws := by
          simp [List.dropWhile, hw]
        rw [ht, hd, keepRuns_cons_del w ws hw]
        simp [lastEnd]
      · have hw' : wordDeleted w = false := by simpa using hw
        have hstep : buildStep (segs, some ⟨s, e⟩) w
            = (segs, some { start := s, «end» := w.«end» }) := by
          simp [buildStep, hw']
        rw [List.foldl_cons, hstep, ihS]
        have ht : (w :: ws).takeWhile (fun u => !wordDeleted u)
            = w :: ws.takeWhile (fun u => !wordDeleted u) := by
          simp [List.takeWhile, hw']
        have hd : (w :: ws).dropWhile (fun u => !wordDeleted u)
            = ws.dropWhile (fun u => !wordDeleted u) := by
          simp [List.dropWhile, hw']
        rw [ht, hd, lastEnd_cons]

theorem build_segments_eq_runs (ws : List EditedWord) :
    build_segments ws = (keepRuns ws).map (fun p => runSegment p.1 p.2) := by
  have h := (foldl_buildStep_runs ws).1 []
  simpa [build_segments, finishAcc] using h

/-- The first words of the maximal runs form a sublist of the input, in
input order. -/
theorem keepRuns_heads_sublist_aux :
    ∀ (n : Nat) (ws : List EditedWord), ws.length ≤ n →
      ((keepRuns ws).map Prod.fst).Sublist ws := by
  intro n
  induction n with
  | zero =>
    intro ws h
    have : ws = [] := List.length_eq_zero.mp (Nat.le_zero.mp h)
    subst this; simp [keepRuns_nil]
  | succ n ih =>
    intro ws h
    cases ws with
    | nil => simp [keepRuns_nil]
    | cons w ws =>
      by_cases hw : wordDeleted w
      · rw [keepRuns_cons_del w ws hw]
        have hws : ws.length ≤ n := by simp [List.length_cons] at h; omega
        exact (ih ws hws).cons w
      · have hw' : wordDeleted w = false := by simpa using hw
        rw [keepRuns_cons_keep w ws hw']
        simp only [List.map_cons]
        refine List.Sublist.cons₂ w ?_
        have hdrop : (ws.dropWhile (fun u => !wordDeleted u)).Sublist ws :=
          (List.dropWhile_suffix _).sublist
        have hlen : (ws.dropWhile (fun u => !wordDeleted u)).length ≤ n := by
          have := hdrop.length_le
          have hws : ws.length ≤ n := by simp [List.length_cons] at h; omega
          omega
        exact (ih _ hlen).trans hdrop

theorem keepRuns_heads_sublist (ws : List EditedWord) :
    ((keepRuns ws).map Prod.fst).Sublist ws :=
  keepRuns_heads_sublist_aux ws.length ws le_rfl

theorem keepRuns_all_deleted (ws : List EditedWord)
    (h : ∀ w ∈ ws, wordDeleted w = true) : keepRuns ws = [] := by
  induction ws with
  | nil => exact keepRuns_nil
  | cons w ws ih =>
    rw [keepRuns_cons_del w ws (h w (by simp))]
    exact ih fun u hu => h u (by simp [hu])

theorem lastEnd_eq_getLast (w : EditedWord) (rest : List EditedWord) :
    lastEnd w.«end» rest = ((w :: rest).getLast (List.cons_ne_nil w rest)).«end» := by
  cases rest with
  | nil => simp [lastEnd]
  | cons u t =>
    have h1 : (u :: t).getLast? = some ((u :: t).getLast (List.cons_ne_nil u t)) :=
      List.getLast?_eq_getLast (u :: t) (List.cons_ne_nil u t)
    have h2 : (w :: u :: t).getLast (List.cons_ne_nil w (u :: t))
        = (u :: t).getLast (List.cons_ne_nil u t) := List.getLast_cons (List.cons_ne_nil u t)
    simp [lastEnd, h1, h2]

/-- Claim C1: `build_segments` returns exactly one segment per maximal run
of consecutive non-deleted words, in input order, each spanning from the
start of the first word of its run to the end of the last word of its run;
for input sorted ascending by `start` the output is sorted ascending by
`start`; the empty list maps to the empty list, an all-deleted list maps to
the empty list, and a non-empty list with no deleted word maps to the
single segment from the start of the first word to the end of the last
word. -/
theorem c1_build_segments_correct (ws : List EditedWord) :
    build_segments ws = (keepRuns ws).map (fun p => runSegment p.1 p.2)
    ∧ (ws.Pairwise (fun a b => a.start ≤ b.start) →
        (build_segments ws).Pairwise (fun a b => a.start ≤ b.start))
    ∧ build_segments ([] : List EditedWord) = []
    ∧ ((∀ w ∈ ws, wordDeleted w = true) → build_segments ws = [])
    ∧ (∀ w rest, ws = w :: rest → (∀ u ∈ ws, wordDeleted u = false) →
        build_segments ws
          = [{ start := w.start,
               «end» := ((w :: rest).getLast (List.cons_ne_nil w rest)).«end» }]) := by
  refine ⟨build_segments_eq_runs ws, fun hsort => ?_, by decide, fun hdel => ?_, ?_⟩
  · have h1 : ((keepRuns ws).map Prod.fst).Pairwise (fun a b => a.start ≤ b.start) :=
      List.Pairwise.sublist (keepRuns_heads_sublist ws) hsort
    rw [build_segments_eq_runs, List.pairwise_map]
    rw [List.pairwise_map] at h1
    exact h1
  · rw [build_segments_eq_runs, keepRuns_all_deleted ws hdel]; rfl
  · intro w rest hws hkeep
    subst hws
    have hw' : wordDeleted w = false := hkeep w (by simp)
    have htake : rest.takeWhile (fun u => !wordDeleted u) = rest := by
      rw [List.takeWhile_eq_self_iff]
      intro u hu; simp [hkeep u (by simp [hu])]
    have hdropnil : rest.dropWhile (fun u => !wordDeleted u) = [] := by
      rw [List.dropWhile_eq_nil_iff]
      intro u hu; simp [hkeep u (by simp [hu])]
    rw [build_segments_eq_runs, keepRuns_cons_keep w rest hw', htake, hdropnil,
      keepRuns_nil]
    simp [runSegment, lastEnd_eq_getLast]

/-- Witness for C1 at the concrete example of the specification. -/
theorem c1_witness :
    build_segments
        [⟨0, 1, some false⟩, ⟨1, 2, some true⟩, ⟨2, 3, some false⟩, ⟨3, 4, some false⟩]
      = [⟨0, 1⟩, ⟨2, 4⟩]
    ∧ (build_segments
        [⟨0, 1, some false⟩, ⟨1, 2, some true⟩, ⟨2, 3, some false⟩, ⟨3, 4, some false⟩]).Pairwise
        (fun a b => a.start ≤ b.start) := by
  have h := c1_build_segments_correct
    [⟨0, 1, some false⟩, ⟨1, 2, some true⟩, ⟨2, 3, some false⟩, ⟨3, 4, some false⟩]
  exact ⟨by decide, h.2.1 (by decide)⟩

/-- Claim C10: a word record without the `deleted` key behaves exactly like
one with `deleted = false`, both at the level of a single loop step and for
the whole of `build_segments`. -/
theorem c10_missing_deleted_default (ws : List EditedWord)
    (h : ∀ w ∈ ws, w.deleted = none) :
    build_segments ws
      = build_segments (ws.map (fun w => { w with deleted := some false }))
    ∧ ∀ (acc : List Segment × Option Segment) (w : EditedWord), w.deleted = none →
        buildStep acc w = buildStep acc { w with deleted := some false } := by
  have hstep : ∀ (acc : List Segment × Option Segment) (w : EditedWord), w.deleted = none →
      buildStep acc w = buildStep acc { w with deleted := some false } := by
    intro acc w hw
    simp [buildStep, wordDeleted, hw]
  refine ⟨?_, hstep⟩
  have hfold : ∀ (l : List EditedWord), (∀ w ∈ l, w.deleted = none) →
      ∀ acc, l.foldl buildStep acc
        = (l.map (fun w => { w with deleted := some false })).foldl buildStep acc := by
    intro l
    induction l with
    | nil => intro _ acc; rfl
    | cons w l ih =>
      intro hl acc
      rw [List.map_cons, List.foldl_cons, List.foldl_cons,
        ← hstep acc w (hl w (by simp))]
      exact ih (fun u hu => hl u (by simp [hu])) _
  unfold build_segments
  rw [hfold ws h ([], none)]

/-- Witness for C10. -/
theorem c10_witness :
    build_segments [⟨0, 1, none⟩, ⟨2, 3, none⟩]
      = build_segments [⟨0, 1, some false⟩, ⟨2, 3, some false⟩] := by
  have h := (c10_missing_deleted_default [⟨0, 1, none⟩, ⟨2, 3, none⟩] (by decide)).1
  simpa using h

/-! ## JobManager (server.py lines 158-228)

Python job records are dicts whose values are immutable scalars except for
the `logs` list, which is a mutable object.  `get_job` and `list_jobs`
return shallow `dict(job)` copies, so the `logs` value of a returned
snapshot is the same list object as the one in the store.  The embedding
therefore stores the scalar fields by value in `Job` and represents the
`logs` list by an index (`logsRef`) into a heap of lists held by the
manager; `create_job` allocates a fresh empty list on that heap and
`update_job` with a `log_line` mutates the heap cell in place.  The
`threading.Lock` serializes the operations; the embedding makes each
operation one atomic state transition, which is exactly what the lock
guarantees.  `time.time()` results are passed in as an explicit `now`. -/

/-- The status string constants of class `JobStatus`. -/
def JobStatus.PENDING : String := "pending"

def JobStatus.RUNNING : String := "running"

def JobStatus.COMPLETED : String := "completed"

def JobStatus.FAILED : String := "failed"

/-- One job record, keys as in `create_job`. -/
structure Job where
  id : String
  type : String
  label : String
  status : String
  progress : ℚ
  message : String
  logsRef : Nat
  created_at : ℚ
  updated_at : ℚ
deriving DecidableEq

/-- The state of the `JobManager`: the insertion-ordered dict `_jobs` as an
association list, plus the heap of mutable `logs` list objects. -/
structure JobManager where
  jobs : List (String × Job)
  heap : List (List String)
deriving DecidableEq

/-- A freshly constructed `JobManager()`. -/
def initManager : JobManager := { jobs := [], heap := [] }

/-- `self._jobs.get(job_id)` -/
def lookupJob : List (String × Job) → String → Option Job
  | [], _ => none
  | (k, v) :: rest, i => if k = i then some v else lookupJob rest i

/-- Overwrite the value stored under an existing key (dict mutation of a
present key); leaves the list unchanged when the key is absent. -/
def setJob : List (String × Job) → String → Job → List (String × Job)
  | [], _, _ => []
  | (k, v) :: rest, i, j => if k = i then (k, j) :: rest else (k, v) :: setJob rest i j

/-- `self._jobs[job_id] = record`: replace when present, append when new. -/
def insertJob (l : List (String × Job)) (i : String) (j : Job) : List (String × Job) :=
  if (lookupJob l i).isSome then setJob l i j else l ++ [(i, j)]

/-- `JobManager.create_job` (lines 170-185).  The fresh `uuid4` id is
passed in by the caller of the model. -/
def create_job (m : JobManager) (job_id job_type label : String) (now : ℚ) : JobManager :=
  let job : Job :=
    { id := job_id, type := job_type, label := label,
      status := JobStatus.PENDING, progress := 0, message := "queued",
      logsRef := m.heap.length, created_at := now, updated_at := now }
  { jobs := insertJob m.jobs job_id job, heap := m.heap ++ [[]] }

/-- `max(0.0, min(100.0, progress))` -/
def clampProgress (p : ℚ) : ℚ := max 0 (min 100 p)

/-- `JobManager.update_job` (lines 187-216).  An absent record is a silent
no-op; a supplied status is stored unconditionally; a supplied progress is
clamped; a supplied log line is appended in place to the logs list object
of the record. -/
def update_job (m : JobManager) (job_id : String) (status : Option String)
    (progress : Option ℚ) (message : Option String) (log_line : Option String)
    (now : ℚ) : JobManager :=
  match lookupJob m.jobs job_id with
  | none => m
  | some job0 =>
    let job1 := match status with
      | some s => { job0 with status := s }
      | none => job0
    let job2 := match progress with
      | some p => { job1 with progress := clampProgress p }
      | none => job1
    let job3 := match message with
      | some t => { job2 with message := t }
      | none => job2
    let heap := match log_line with
      | some line => m.heap.set job3.logsRef (m.heap.getD job3.logsRef [] ++ [line])
      | none => m.heap
    let job4 := { job3 with updated_at := now }
    { jobs := setJob m.jobs job_id job4, heap := heap }

/-- `JobManager.get_job` (lines 218-221): the shallow `dict(job)` copy is
the record value itself; its `logsRef` still points into the shared heap. -/
def get_job (m : JobManager) (job_id : String) : Option Job :=
  lookupJob m.jobs job_id

/-- `JobManager.list_jobs` (lines 223-225): shallow copies of all records. -/
def list_jobs (m : JobManager) : List (String × Job) :=
  m.jobs

/-- Reading the `logs` list of a snapshot `j` in manager state `m`:
dereference the shared list object. -/
def logsView (m : JobManager) (j : Job) : List String :=
  m.heap.getD j.logsRef []

theorem lookupJob_setJob_self (l : List (String × Job)) (i : String) (j : Job)
    (h : (lookupJob l i).isSome) : lookupJob (setJob l i j) i = some j := by
  induction l with
  | nil => simp [lookupJob] at h
  | cons p rest ih =>
    obtain ⟨k, v⟩ := p
    by_cases hk : k = i
    · simp [lookupJob, setJob, hk]
    · simp [lookupJob, setJob, hk] at h ⊢
      exact ih h

theorem setJob_of_not_mem (l : List (String × Job)) (i : String) (j : Job)
    (h : lookupJob l i = none) : setJob l i j = l := by
  induction l with
  | nil => rfl
  | cons p rest ih =>
    obtain ⟨k, v⟩ := p
    by_cases hk : k = i
    · simp [lookupJob, hk] at h
    · simp [lookupJob, hk] at h
      simp [setJob, hk, ih h]

theorem lookupJob_append_self (l : List (String × Job)) (i : String) (j : Job)
    (h : lookupJob l i = none) : lookupJob (l ++ [(i, j)]) i = some j := by
  induction l with
  | nil => simp [lookupJob]
  | cons p rest ih =>
    obtain ⟨k, v⟩ := p
    by_cases hk : k = i
    · simp [lookupJob, hk] at h
    · simp [lookupJob, hk] at h ⊢
      exact ih h

theorem lookupJob_insertJob_self (l : List (String × Job)) (i : String) (j : Job) :
    lookupJob (insertJob l i j) i = some j := by
  unfold insertJob
  by_cases h : (lookupJob l i).isSome
  · simp [h, lookupJob_setJob_self l i j h]
  · simp [h]
    exact lookupJob_append_self l i j (Option.not_isSome_iff_eq_none.mp h)

theorem mem_setJob (l : List (String × Job)) (i : String) (j : Job) (p : String × Job)
    (h : p ∈ setJob l i j) : p = (i, j) ∨ p ∈ l := by
  induction l with
  | nil => simp [setJob] at h
  | cons q rest ih =>
    obtain ⟨k, v⟩ := q
    by_cases hk : k = i
    · subst hk
      simp [setJob] at h
      rcases h with h | h
      · subst h; exact Or.inl rfl
      · exact Or.inr (by simp [h])
    · simp [setJob, hk] at h
      rcases h with h | h
      · exact Or.inr (by simp [h])
      · rcases ih h with h | h
        · exact Or.inl h
        · exact Or.inr (by simp [h])

theorem mem_lookupJob (l : List (String × Job)) (i : String) (j : Job)
    (h : lookupJob l i = some j) : (i, j) ∈ l := by
  induction l with
  | nil => simp [lookupJob] at h
  | cons q rest ih =>
    obtain ⟨k, v⟩ := q
    by_cases hk : k = i
    · subst hk
      simp [lookupJob] at h
      simp [h]
    · simp [lookupJob, hk] at h
      simp [ih h]

/-- The record returned by `get_job` right after an `update_job` on the
same, present id: every supplied field is applied (status unconditionally,
progress clamped), omitted fields are kept, `updated_at` is refreshed and
the `logsRef` is untouched. -/
theorem get_job_update_self (m : JobManager) (i : String) (j : Job)
    (h : get_job m i = some j) (st : Option String) (pr : Option ℚ)
    (ms : Option String) (ll : Option String) (now : ℚ) :
    get_job (update_job m i st pr ms ll now) i
      = some { j with
          status := st.getD j.status,
          progress := (pr.map clampProgress).getD j.progress,
          message := ms.getD j.message,
          updated_at := now } := by
  have hs : (lookupJob m.jobs i).isSome := by
    unfold get_job at h; simp [h]
  unfold get_job update_job
  unfold get_job at h
  rw [h]
  cases st <;> cases pr <;> cases ms <;> cases ll <;>
    simp [lookupJob_setJob_self m.jobs i _ hs]

theorem get_job_update_isSome (m : JobManager) (i : String) (st : Option String)
    (pr : Option ℚ) (ms : Option String) (ll : Option String) (now : ℚ)
    (h : (get_job m i).isSome) :
    (get_job (update_job m i st pr ms ll now) i).isSome := by
  obtain ⟨j, hj⟩ := Option.isSome_iff_exists.mp h
  rw [get_job_update_self m i j hj st pr ms ll now]
  rfl

theorem get_job_create_self (m : JobManager) (i t l : String) (now : ℚ) :
    get_job (create_job m i t l now) i
      = some { id := i, type := t, label := l, status := JobStatus.PENDING,
               progress := 0, message := "queued", logsRef := m.heap.length,
               created_at := now, updated_at := now } := by
  unfold get_job create_job
  exact lookupJob_insertJob_self m.jobs i _

/-- Claim C2 counterexample: `update_job` has no terminal-state guard, so a
status supplied after the job reached `completed` still overwrites it — a
subsequent `get_job` reports `running`, not the terminal status. -/
theorem c2_counterexample :
    (get_job (update_job (create_job initManager "a" "export" "demo" 0) "a"
        (some JobStatus.COMPLETED) none none none 1) "a").map Job.status
      = some JobStatus.COMPLETED
    ∧ (get_job (update_job (update_job (create_job initManager "a" "export" "demo" 0) "a"
        (some JobStatus.COMPLETED) none none none 1) "a"
        (some JobStatus.RUNNING) none none none 2) "a").map Job.status
      = some JobStatus.RUNNING
    ∧ JobStatus.RUNNING ≠ JobStatus.COMPLETED := by decide

/-- Claim C2 (amended): `update_job` applies a supplied status
unconditionally — there is no terminal-state guard, so a later
`update(id, status=s)` flips even a `completed`/`failed` job to `s`; the
status of a present job is left unchanged exactly when the update omits
it. -/
theorem c2_amended_status_overwritten (m : JobManager) (i : String) (j : Job)
    (h : get_job m i = some j) (pr : Option ℚ) (ms : Option String)
    (ll : Option String) (now : ℚ) :
    (∀ st : String,
        (get_job (update_job m i (some st) pr ms ll now) i).map Job.status = some st)
    ∧ (get_job (update_job m i none pr ms ll now) i).map Job.status = some j.status := by
  constructor
  · intro st
    rw [get_job_update_self m i j h (some st) pr ms ll now]
    rfl
  · rw [get_job_update_self m i j h none pr ms ll now]
    rfl

/-- Witness for the amended C2: a `failed` job flips to `running`. -/
theorem c2_witness :
    (get_job (update_job (update_job (create_job initManager "b" "export" "demo" 0) "b"
        (some JobStatus.FAILED) none none none 1) "b"
        (some JobStatus.RUNNING) none none none 2) "b").map Job.status
      = some JobStatus.RUNNING :=
  (c2_amended_status_overwritten
      (update_job (create_job initManager "b" "export" "demo" 0) "b"
        (some JobStatus.FAILED) none none none 1)
      "b"
      { id := "b", type := "export", label := "demo", status := JobStatus.FAILED,
        progress := 0, message := "queued", logsRef := 0, created_at := 0,
        updated_at := 1 }
      (by decide) none none none 2).1 JobStatus.RUNNING

/-- Claim C3 counterexample: `get_job` returns a shallow `dict(job)` copy,
so the `logs` list object is shared; a later `update_job` that appends a
log line is visible through the logs of the previously returned
snapshot. -/
theorem c3_counterexample :
    (get_job (create_job initManager "a" "proxy" "demo" 0) "a").map
        (logsView (create_job initManager "a" "proxy" "demo" 0))
      = some []
    ∧ (get_job (create_job initManager "a" "proxy" "demo" 0) "a").map
        (logsView (update_job (create_job initManager "a" "proxy" "demo" 0) "a"
          none none none (some "ffmpeg started") 1))
      = some ["ffmpeg started"] := by decide

/-- Claim C3 (amended): `get_job`/`list_jobs` copy the top-level record, so
the scalar fields of a snapshot are independent values, but the `logs`
list is shared by reference: an update that appends a log line to the same
job becomes visible through the logs of a previously obtained snapshot
(the view gains exactly the appended line), while updates that do not
supply a log line leave that view unchanged. -/
theorem c3_amended_shallow_snapshot (m : JobManager) (i : String) (s : Job)
    (h : get_job m i = some s) (href : s.logsRef < m.heap.length)
    (st : Option String) (pr : Option ℚ) (ms : Option String) (now : ℚ) :
    (∀ line, logsView (update_job m i st pr ms (some line) now) s
        = logsView m s ++ [line])
    ∧ logsView (update_job m i st pr ms none now) s = logsView m s
    ∧ (∀ x, lookupJob (list_jobs m) x = get_job m x) := by
  have h' : lookupJob m.jobs i = some s := h
  refine ⟨fun line => ?_, ?_, fun x => rfl⟩
  · cases st <;> cases pr <;> cases ms <;>
      simp [update_job, h', logsView, List.getElem?_set_eq_of_lt _ href]
  · cases st <;> cases pr <;> cases ms <;> simp [update_job, h', logsView]

/-- Witness for the amended C3. -/
theorem c3_witness :
    logsView (update_job (create_job initManager "a" "proxy" "demo" 0) "a"
        none none none (some "x") 1)
      { id := "a", type := "proxy", label := "demo", status := JobStatus.PENDING,
        progress := 0, message := "queued", logsRef := 0, created_at := 0,
        updated_at := 0 }
      = logsView (create_job initManager "a" "proxy" "demo" 0)
          { id := "a", type := "proxy", label := "demo", status := JobStatus.PENDING,
            progress := 0, message := "queued", logsRef := 0, created_at := 0,
            updated_at := 0 } ++ ["x"] :=
  (c3_amended_shallow_snapshot (create_job initManager "a" "proxy" "demo" 0) "a"
      { id := "a", type := "proxy", label := "demo", status := JobStatus.PENDING,
        progress := 0, message := "queued", logsRef := 0, created_at := 0,
        updated_at := 0 }
      (by decide) (by decide) none none none 1).1 "x"

/-- Every stored record has its progress within [0, 100]. -/
def progressInv (m : JobManager) : Prop :=
  ∀ p ∈ m.jobs, 0 ≤ p.2.progress ∧ p.2.progress ≤ 100

theorem clampProgress_bounds (p : ℚ) :
    0 ≤ clampProgress p ∧ clampProgress p ≤ 100 :=
  ⟨le_max_left 0 _, max_le (by norm_num) (min_le_left 100 p)⟩

/-- Claim C7: `create_job` stores progress 0, `update_job` clamps any
supplied progress into [0, 100], so the progress of every reachable record
stays within [0, 100]; in particular updating with 150 yields 100 and
updating with -10 yields 0. -/
theorem c7_progress_clamped (m : JobManager) (hm : progressInv m) :
    (∀ i t l now, progressInv (create_job m i t l now))
    ∧ (∀ i st pr ms ll now, progressInv (update_job m i st pr ms ll now))
    ∧ (∀ i t l now, (get_job (create_job m i t l now) i).map Job.progress = some 0)
    ∧ (∀ i now, (get_job m i).isSome →
        (get_job (update_job m i none (some 150) none none now) i).map Job.progress
          = some 100)
    ∧ (∀ i now, (get_job m i).isSome →
        (get_job (update_job m i none (some (-10)) none none now) i).map Job.progress
          = some 0)
    ∧ (∀ i j, get_job m i = some j → 0 ≤ j.progress ∧ j.progress ≤ 100) := by
  refine ⟨?_, ?_, ?_, ?_, ?_, ?_⟩
  · intro i t l now p hp
    unfold create_job at hp
    simp only [insertJob] at hp
    by_cases hs : (lookupJob m.jobs i).isSome
    · simp only [hs, if_true] at hp
      rcases mem_setJob _ _ _ _ hp with heq | hmem
      · subst heq; constructor <;> norm_num
      · exact hm _ hmem
    · rw [if_neg hs] at hp
      rcases List.mem_append.mp hp with hmem | heq
      · exact hm _ hmem
      · have heq' := List.mem_singleton.mp heq
        subst heq'; constructor <;> norm_num
  · intro i st pr ms ll now p hp
    unfold update_job at hp
    cases hlk : lookupJob m.jobs i with
    | none => rw [hlk] at hp; exact hm _ hp
    | some job0 =>
      rw [hlk] at hp
      simp only at hp
      rcases mem_setJob _ _ _ _ hp with heq | hmem
      · subst heq
        have hbase := hm _ (mem_lookupJob _ _ _ hlk)
        cases st <;> cases pr <;> cases ms <;>
          simp_all [clampProgress_bounds]
      · exact hm _ hmem
  · intro i t l now
    rw [get_job_create_self m i t l now]
    rfl
  · intro i now h
    obtain ⟨j, hj⟩ := Option.isSome_iff_exists.mp h
    rw [get_job_update_self m i j hj none (some 150) none none now]
    norm_num [clampProgress]
  · intro i now h
    obtain ⟨j, hj⟩ := Option.isSome_iff_exists.mp h
    rw [get_job_update_self m i j hj none (some (-10)) none none now]
    norm_num [clampProgress]
  · intro i j hj
    exact hm _ (mem_lookupJob _ _ _ hj)

/-- Witness for C7. -/
theorem c7_witness :
    (get_job (update_job (create_job initManager "c" "proxy" "demo" 0) "c"
        none (some 150) none none 1) "c").map Job.progress = some 100
    ∧ (get_job (update_job (create_job initManager "c" "proxy" "demo" 0) "c"
        none (some (-10)) none none 1) "c").map Job.progress = some 0 :=
  ⟨(c7_progress_clamped (create_job initManager "c" "proxy" "demo" 0)
      (by unfold progressInv; decide)).2.2.2.1 "c" 1 (by decide),
   (c7_progress_clamped (create_job initManager "c" "proxy" "demo" 0)
      (by unfold progressInv; decide)).2.2.2.2.1 "c" 1 (by decide)⟩

/-- Claim C8: `update_job` on an id that is not in the store performs no
mutation at all — the whole manager state is unchanged, no record is
created, and `get_job` on that id still reports not-found. -/
theorem c8_update_unknown_noop (m : JobManager) (i : String) (h : get_job m i = none)
    (st : Option String) (pr : Option ℚ) (ms : Option String) (ll : Option String)
    (now : ℚ) :
    update_job m i st pr ms ll now = m
    ∧ get_job (update_job m i st pr ms ll now) i = none := by
  have h' : lookupJob m.jobs i = none := h
  have heq : update_job m i st pr ms ll now = m := by
    unfold update_job
    rw [h']
  exact ⟨heq, by rw [heq]; exact h⟩

/-- Witness for C8. -/
theorem c8_witness :
    update_job initManager "missing" (some JobStatus.RUNNING) (some 42)
        (some "msg") (some "line") 7 = initManager
    ∧ get_job (update_job initManager "missing" (some JobStatus.RUNNING) (some 42)
        (some "msg") (some "line") 7) "missing" = none :=
  c8_update_unknown_noop initManager "missing" (by decide)
    (some JobStatus.RUNNING) (some 42) (some "msg") (some "line") 7

/-! ## WorkspaceSandbox (server.py lines 640-658)

`resolve_workspace_path` and `workspace_path_from_name` turn a
caller-supplied string into a path inside `WORKSPACE_DIR`: join to the
root (absolute inputs are taken as they are, which is also what
`WORKSPACE_DIR / rel` does for an absolute `rel`), canonicalize with
`Path.resolve()`, then check containment with
`candidate.relative_to(WORKSPACE_DIR)`, whose `ValueError` is the escape
failure (`none` below).  Paths are modelled by their component lists; the
workspace root is canonical and absolute (it is itself produced by
`Path.resolve()` when the workspace is set).  `resolve()` is modelled
lexically: `.` and empty components vanish and `..` removes the previous
component (staying put at the filesystem root); symlink rewriting is
outside the model.  The containment check of `relative_to` is lexical in
`pathlib` as well: it succeeds exactly when the root components are a
prefix of the candidate components. -/

/-- Split a string at `/` characters (model of the component splitting of
`pathlib`). -/
def splitSlashAux : List Char → List Char → List String
  | [], acc => [String.mk acc.reverse]
  | c :: rest, acc =>
    if c = '/' then String.mk acc.reverse :: splitSlashAux rest []
    else splitSlashAux rest (c :: acc)

/-- The components of a POSIX path string as `pathlib.Path` parses it:
empty components (repeated or trailing slashes) and `.` disappear at
construction, `..` is kept. -/
def pathParts (s : String) : List String :=
  (splitSlashAux s.data []).filter (fun c => c != "" && c != ".")

/-- `Path(s).is_absolute()` on POSIX: the string starts with `/`. -/
def pathIsAbsolute (s : String) : Bool :=
  match s.data with
  | c :: _ => c = '/'
  | [] => false

/-- Lexical `Path.resolve()` on the components of an absolute path: `..`
removes the previous component and stays put at the root, `.` and empty
components vanish. -/
def resolveParts (parts : List String) : List String :=
  parts.foldl
    (fun acc c =>
      if c = ".." then acc.dropLast
      else if c = "." || c = "" then acc
      else acc ++ [c]) []

/-- `resolve_workspace_path` (lines 640-646), for a set workspace whose
canonical absolute components are `root`.  `none` is the `ValueError` of
`candidate.relative_to(WORKSPACE_DIR)` — the path-escape failure. -/
def resolve_workspace_path (root : List String) (relative_path : String) :
    Option (List String) :=
  let rel := pathParts relative_path
  let joined := if pathIsAbsolute relative_path then rel else root ++ rel
  let candidate := resolveParts joined
  if root <+: candidate then some candidate else none

/-- `workspace_path_from_name` (lines 649-658): identical except that the
absolute case is spelled out with `is_absolute()`. -/
def workspace_path_from_name (root : List String) (name : String) :
    Option (List String) :=
  let rel := pathParts name
  let candidate :=
    if pathIsAbsolute name then resolveParts rel else resolveParts (root ++ rel)
  if root <+: candidate then some candidate else none

/-- The components of a canonical absolute directory: no `..`, `.` or empty
entries. -/
def canonicalRoot (root : List String) : Prop :=
  ∀ c ∈ root, c ≠ ".." ∧ c ≠ "." ∧ c ≠ ""

example : pathParts "../../etc/passwd" = ["..", "..", "etc", "passwd"] := by decide

example : pathIsAbsolute "/etc/passwd" = true := by decide

example : resolve_workspace_path ["home", "user", "proj"] "clip.mp4"
    = some ["home", "user", "proj", "clip.mp4"] := by decide

example : resolve_workspace_path ["home", "user", "proj"] "../../etc/passwd"
    = none := by decide

theorem resolveParts_append (a b : List String) :
    resolveParts (a ++ b)
      = b.foldl
          (fun acc c =>
            if c = ".." then acc.dropLast
            else if c = "." || c = "" then acc
            else acc ++ [c]) (resolveParts a) := by
  simp [resolveParts, List.foldl_append]

theorem foldl_resolve_plain (l : List String)
    (h : ∀ c ∈ l, c ≠ ".." ∧ c ≠ "." ∧ c ≠ "") :
    ∀ acc : List String,
      l.foldl
          (fun acc c =>
            if c = ".." then acc.dropLast
            else if c = "." || c = "" then acc
            else acc ++ [c]) acc = acc ++ l := by
  induction l with
  | nil => intro acc; simp
  | cons c l ih =>
    intro acc
    obtain ⟨h1, h2, h3⟩ := h c (by simp)
    rw [List.foldl_cons, if_neg h1, if_neg (by simp [h2, h3]),
      ih (fun u hu => h u (by simp [hu]))]
    simp

theorem resolveParts_canonical (root : List String) (h : canonicalRoot root) :
    resolveParts root = root := by
  have := foldl_resolve_plain root h []
  simpa [resolveParts] using this

/-- Canonicalizing `root / ../../etc/passwd` drops the last two components
of the root and descends into `etc/passwd`. -/
theorem resolveParts_escape (root : List String) (h : canonicalRoot root) :
    resolveParts (root ++ ["..", "..", "etc", "passwd"])
      = root.dropLast.dropLast ++ ["etc", "passwd"] := by
  rw [resolveParts_append]
  have hc : (fun acc c =>
      if c = ".." then acc.dropLast
      else if c = "." || c = "" then acc
      else acc ++ [c]) = (fun (acc : List String) c =>
      if c = ".." then acc.dropLast
      else if c = "." || c = "" then acc
      else acc ++ [c]) := rfl
  rw [resolveParts_canonical root h]
  simp

/-- For which roots does the canonicalized `../../etc/passwd` candidate stay
inside the root?  Exactly the filesystem root, `/etc`, and roots whose last
two components are `etc/passwd`. -/
theorem escape_prefix_iff (root : List String) :
    (root <+: root.dropLast.dropLast ++ ["etc", "passwd"]) ↔
      (root = [] ∨ root = ["etc"] ∨ ["etc", "passwd"] <:+ root) := by
  rcases List.eq_nil_or_concat root with rfl | ⟨ys, b, hroot⟩
  · simp
  · rw [List.concat_eq_append] at hroot
    subst hroot
    rcases List.eq_nil_or_concat ys with rfl | ⟨zs, a, hys⟩
    · simp only [List.nil_append, List.dropLast_single, List.dropLast_nil]
      constructor
      · intro hpre
        have hb : b = "etc" := by simpa using hpre
        subst hb
        simp
      · intro hcase
        rcases hcase with hcase | hcase | hcase
        · simp at hcase
        · simp at hcase
          subst hcase
          simp
        · have := hcase.length_le
          simp at this
    · rw [List.concat_eq_append] at hys
      subst hys
      have hd1 : (zs ++ [a] ++ [b]).dropLast = zs ++ [a] := List.dropLast_concat
      have hd2 : (zs ++ [a]).dropLast = zs := List.dropLast_concat
      rw [hd1, hd2]
      constructor
      · intro hpre
        rw [List.append_assoc] at hpre
        have hab : a = "etc" ∧ b = "passwd" := by
          have := (List.prefix_append_right_inj zs).mp hpre
          simpa using this
        obtain ⟨ha, hb⟩ := hab
        subst ha; subst hb
        exact Or.inr (Or.inr ⟨zs, by simp⟩)
      · intro hcase
        rcases hcase with hcase | hcase | hcase
        · simp at hcase
        · have hlen : zs.length + 2 = 1 := by
            have h2 := congrArg List.length hcase
            simp at h2
          omega
        · have hrev : ["etc", "passwd"].reverse <+: (zs ++ [a] ++ [b]).reverse :=
            List.reverse_prefix.mpr hcase
          have hab : "passwd" = b ∧ "etc" = a := by simpa using hrev
          obtain ⟨hb, ha⟩ := hab
          subst hb; subst ha
          rw [List.append_assoc]
          simp

/-- Claim C4 counterexample: the specification says resolving
`../../etc/passwd` fails for every root, but for the root `/etc` (and for
the filesystem root `/`) the canonicalized result lands back inside the
root and resolution succeeds. -/
theorem c4_counterexample :
    resolve_workspace_path ["etc"] "../../etc/passwd" = some ["etc", "passwd"]
    ∧ workspace_path_from_name ["etc"] "../../etc/passwd" = some ["etc", "passwd"]
    ∧ resolve_workspace_path [] "../../etc/passwd" = some ["etc", "passwd"] := by
  refine ⟨by decide, by decide, by decide⟩

/-- Claim C4 (amended): resolution joins the input to the root when
relative (absolute inputs are normalized directly), canonicalizes, and
fails whenever the result is neither the root itself nor a descendant of
it — every returned path has the root as a prefix, and the two resolution
helpers agree on every input.  Resolving `../../etc/passwd` fails for
every root except the filesystem root `/`, the root `/etc`, and roots
whose last two components are `etc/passwd`; for exactly those the result
falls back inside the root. -/
theorem c4_amended_path_escape (root : List String) (hroot : canonicalRoot root) :
    (∀ p r, resolve_workspace_path root p = some r → root <+: r)
    ∧ (∀ p, workspace_path_from_name root p = resolve_workspace_path root p)
    ∧ (resolve_workspace_path root "../../etc/passwd" = none ↔
        ¬(root = [] ∨ root = ["etc"] ∨ ["etc", "passwd"] <:+ root)) := by
  refine ⟨fun p r hr => ?_, fun p => ?_, ?_⟩
  · unfold resolve_workspace_path at hr
    by_cases hpre : root <+: resolveParts
        (if pathIsAbsolute p then pathParts p else root ++ pathParts p)
    · simp only [hpre, if_pos] at hr
      cases hr
      exact hpre
    · simp [hpre] at hr
  · unfold resolve_workspace_path workspace_path_from_name
    by_cases habs : pathIsAbsolute p <;> simp [habs]
  · have hparts : pathParts "../../etc/passwd" = ["..", "..", "etc", "passwd"] := by
      decide
    have habs : pathIsAbsolute "../../etc/passwd" = false := by decide
    unfold resolve_workspace_path
    rw [hparts, habs]
    simp only [Bool.false_eq_true, if_false]
    rw [resolveParts_escape root hroot]
    by_cases hpre : root <+: root.dropLast.dropLast ++ ["etc", "passwd"]
    · rw [if_pos hpre]
      exact iff_of_false (by simp) (not_not_intro ((escape_prefix_iff root).mp hpre))
    · rw [if_neg hpre]
      exact iff_of_true rfl (fun hd => hpre ((escape_prefix_iff root).mpr hd))

/-- Witness for the amended C4 at a realistic project root. -/
theorem c4_witness :
    resolve_workspace_path ["home", "user", "proj"] "../../etc/passwd" = none :=
  ((c4_amended_path_escape ["home", "user", "proj"]
      (by unfold canonicalRoot; decide)).2.2).mpr (by decide)

/-! ## ProxyEncoder progress parsing (server.py lines 688-766)

`run_ffmpeg_proxy` reads the ffmpeg progress stream line by line.  The
embedding models the loop body for a single raw line.  The Python string
primitives are modelled on the character lists of the strings. -/

/-- Model of `str.strip()`: remove leading and trailing whitespace. -/
def pyStrip (s : String) : String :=
  String.mk (((s.data.dropWhile Char.isWhitespace).reverse.dropWhile
    Char.isWhitespace).reverse)

/-- Model of `s.startswith(pre)`. -/
def pyStartsWith (s pre : String) : Bool :=
  pre.data.isPrefixOf s.data

/-- Model of the slice `s[n:]`; for a line starting with a marker that
contains its only preceding `=`, `line.split("=", 1)[1]` is this slice past
the marker. -/
def pyDrop (s : String) (n : Nat) : String :=
  String.mk (s.data.drop n)

/-- The value of one decimal digit character. -/
def digitVal? (c : Char) : Option Nat :=
  if c = '0' then some 0
  else if c = '1' then some 1
  else if c = '2' then some 2
  else if c = '3' then some 3
  else if c = '4' then some 4
  else if c = '5' then some 5
  else if c = '6' then some 6
  else if c = '7' then some 7
  else if c = '8' then some 8
  else if c = '9' then some 9
  else none

/-- Accumulator pass of a decimal digit string. -/
def digitsValAux : List Char → Nat → Option Nat
  | [], acc => some acc
  | c :: rest, acc =>
    match digitVal? c with
    | some dv => digitsValAux rest (acc * 10 + dv)
    | none => none

/-- Split at the first `.`, keeping the remainder. -/
def splitDot : List Char → List Char × Option (List Char)
  | [] => ([], none)
  | c :: rest =>
    if c = '.' then ([], some rest)
    else
      let r := splitDot rest
      (c :: r.1, r.2)

/-- Model of the Python `float()` constructor, restricted to signed decimal
literals with an optional fractional part (the shapes the ffmpeg progress
stream produces).  Exponents, infinities, underscores and surrounding
whitespace are outside the model and map to `none`, which the caller
treats as the `ValueError` case. -/
def parsePyFloat (s : String) : Option ℚ :=
  let signed : Bool × List Char :=
    match s.data with
    | [] => (false, [])
    | c :: rest =>
      if c = '-' then (true, rest)
      else if c = '+' then (false, rest)
      else (false, c :: rest)
  let parts := splitDot signed.2
  match parts.2 with
  | none =>
    match parts.1 with
    | [] => none
    | _ =>
      (digitsValAux parts.1 0).map fun n =>
        if signed.1 then -(n : ℚ) else (n : ℚ)
  | some fr =>
    if parts.1.isEmpty && fr.isEmpty then none
    else
      match digitsValAux parts.1 0, digitsValAux fr 0 with
      | some n, some f =>
        let mag : ℚ := (n : ℚ) + (f : ℚ) / (10 : ℚ) ^ fr.length
        some (if signed.1 then -mag else mag)
      | _, _ => none

example : parsePyFloat "5000000" = some 5000000 := by decide

example : parsePyFloat "N/A" = none := by decide

example : parsePyFloat "-3" = some (-3) := by decide

/-- Python truthiness of the probed duration: present and nonzero. -/
def truthyDuration : Option ℚ → Bool
  | some d => d != 0
  | none => false

/-- The `progress=` and fallthrough branches of the line classifier: a
short status phrase becomes the message, anything else is appended to the
log. -/
def proxy_other_line (m : JobManager) (job_id : String) (line : String)
    (now : ℚ) : JobManager :=
  if pyStartsWith line "progress=" then
    update_job m job_id none none (some (pyDrop line 9)) none now
  else
    update_job m job_id none none none (some line) now

/-- The body of the progress-stream loop of `run_ffmpeg_proxy` (server.py
lines 739-757) for one raw line: strip it, skip it when empty; an
`out_time_ms=` line with a truthy known duration updates the progress to
`(out_time_ms / 1_000_000) / duration * 100` (clamped by `update_job`)
unless the value is `N/A` or unparsable; a `progress=` line updates the
message; anything else is appended to the log. -/
def proxy_progress_line (m : JobManager) (job_id : String) (duration : Option ℚ)
    (raw_line : String) (now : ℚ) : JobManager :=
  let line := pyStrip raw_line
  if line = "" then m
  else if pyStartsWith line "out_time_ms=" && truthyDuration duration then
    let time_value := pyDrop line 12
    if time_value ≠ "N/A" then
      match parsePyFloat time_value with
      | some out_time_ms =>
        match duration with
        | some d =>
          update_job m job_id none (some (out_time_ms / 1000000 / d * 100)) none none now
        | none => m
      | none => m
    else m
  else proxy_other_line m job_id line now

/-- Claim C9: with a known nonzero source duration `d`, a progress-stream
line of the form `out_time_ms=<v>` with numeric `v` sets the progress of
the job to `(v / 1_000_000) / d * 100`, clamped into [0, 100] by
`update_job`. -/
theorem c9_proxy_progress (m : JobManager) (job_id : String)
    (h : (get_job m job_id).isSome) (d : ℚ) (hd : d ≠ 0)
    (line : String) (hstrip : pyStrip line = line) (hne : line ≠ "")
    (hpre : pyStartsWith line "out_time_ms=" = true)
    (v : ℚ) (hv : parsePyFloat (pyDrop line 12) = some v)
    (hna : pyDrop line 12 ≠ "N/A") (now : ℚ) :
    (get_job (proxy_progress_line m job_id (some d) line now) job_id).map
        Job.progress
      = some (clampProgress (v / 1000000 / d * 100)) := by
  obtain ⟨j, hj⟩ := Option.isSome_iff_exists.mp h
  have hcond : (pyStartsWith line "out_time_ms=" && truthyDuration (some d)) = true := by
    rw [hpre]
    simp [truthyDuration, bne_iff_ne, hd]
  unfold proxy_progress_line
  simp only [hstrip]
  rw [if_neg hne, if_pos hcond, if_pos hna, hv]
  rw [get_job_update_self m job_id j hj none (some (v / 1000000 / d * 100)) none none now]
  rfl

/-- Witness for C9: `out_time_ms=5000000` with duration 10 s reports
progress 50. -/
theorem c9_witness :
    (get_job (proxy_progress_line (create_job initManager "p" "proxy" "demo" 0) "p"
        (some 10) "out_time_ms=5000000" 1) "p").map Job.progress = some 50 := by
  have h := c9_proxy_progress (create_job initManager "p" "proxy" "demo" 0) "p"
    (by decide) 10 (by norm_num) "out_time_ms=5000000" (by decide) (by decide)
    (by decide) 5000000 (by decide) (by decide) 1
  rw [h]
  norm_num [clampProgress]

/-! ## MediaExportEngine (server.py lines 925-1152)

`export_video_ffmpeg` and `export_audio_ffmpeg` have the same control
flow and differ only in the encoder command lines (codec flags, segment
file extension) and one progress message; the embedding captures the
shared flow in `export_ffmpeg_core` and instantiates it once per kind.
The outcomes of the external effects are supplied by an `ExportEnv`
(per-extraction return code and produced file state, concat return code,
output existence) and the disk/process side effects performed are
recorded as an `ExportEvent` trace, so that the no-I/O and manifest
claims are statable. -/

/-- Outcome of one segment-extraction `subprocess.run`: the return code
and the state of the expected segment file afterwards. -/
structure SegOutcome where
  returncode : Int
  fileExists : Bool
  fileSize : Nat

/-- Outcomes of all external effects during one export call. -/
structure ExportEnv where
  segOutcomes : Nat → SegOutcome
  concatReturncode : Int
  outputExistsBefore : Bool
  outputExistsAfter : Bool

/-- The observable side effects of an export call, in order. -/
inductive ExportEvent where
  | removeOutput : ExportEvent
  | makeTempDir : ExportEvent
  | runExtract : Nat → ExportEvent
  | writeConcat : List Nat → ExportEvent
  | runConcat : ExportEvent
deriving DecidableEq

/-- The f-string message of the extraction loop. -/
def extractMessage (i n : Nat) : String :=
  "Extracting segment " ++ toString (i + 1) ++ "/" ++ toString n

/-- The i-th extraction is kept when the encoder exited 0 and the expected
segment file exists and is non-empty (the code first skips on a non-zero
return code, then on a missing/empty file). -/
def segOk (env : ExportEnv) (i : Nat) : Bool :=
  (env.segOutcomes i).returncode == 0 && (env.segOutcomes i).fileExists
    && ((env.segOutcomes i).fileSize != 0)

/-- The per-segment extraction loop shared by both export kinds (lines
947-986 and 1067-1100): for the i-th of `n` segments, push progress
`(i / n) * 50` and the extracting message, run the encoder, skip the
segment when it fails, collect its index when it succeeds.  Returns the
final manager, the events and the collected indices in order. -/
def extract_segments_loop (env : ExportEnv) (job_id : String) (n : Nat) (now : ℚ) :
    Nat → List Segment → JobManager → JobManager × List ExportEvent × List Nat
  | _, [], m => (m, [], [])
  | i, _ :: rest, m =>
    let m1 := update_job m job_id none (some ((i : ℚ) / (n : ℚ) * 50))
      (some (extractMessage i n)) none now
    let r := extract_segments_loop env job_id n now (i + 1) rest m1
    if segOk env i then
      (r.1, ExportEvent.runExtract i :: r.2.1, i :: r.2.2)
    else
      (r.1, ExportEvent.runExtract i :: r.2.1, r.2.2)

/-- The indices of the segments whose extraction succeeds. -/
def successfulIdx (env : ExportEnv) (n : Nat) : List Nat :=
  (List.range n).filter (fun k => segOk env k)

/-- The shared body of `export_video_ffmpeg` (lines 925-1041) and
`export_audio_ffmpeg` (lines 1044-1152): reject empty segments, remove a
pre-existing output, open a temporary directory, extract every segment
(tolerating individual failures), fail when nothing was extracted, write
the concat manifest of the successfully extracted files, run the
stream-copy concat, fail on a non-zero concat exit or a missing output,
otherwise complete with progress 100.  `concatMsg` is the one message the
two kinds spell differently. -/
def export_ffmpeg_core (concatMsg : String) (m : JobManager) (job_id : String)
    (env : ExportEnv) (segments : List Segment) (now : ℚ) :
    JobManager × List ExportEvent × Bool :=
  if segments.isEmpty then
    (update_job m job_id (some JobStatus.FAILED) none (some "No segments to export")
        none now,
      [], false)
  else
    let ev0 : List ExportEvent :=
      if env.outputExistsBefore then [ExportEvent.removeOutput] else []
    let ev1 := ev0 ++ [ExportEvent.makeTempDir]
    let r := extract_segments_loop env job_id segments.length now 0 segments m
    if r.2.2.isEmpty then
      (update_job r.1 job_id (some JobStatus.FAILED) none
          (some "Failed to extract segments") none now,
        ev1 ++ r.2.1, false)
    else
      let m2 := update_job r.1 job_id none (some 60) (some concatMsg) none now
      let ev2 := ev1 ++ r.2.1 ++ [ExportEvent.writeConcat r.2.2, ExportEvent.runConcat]
      if env.concatReturncode ≠ 0 then
        (update_job m2 job_id (some JobStatus.FAILED) none
            (some "Concatenation failed") none now,
          ev2, false)
      else if env.outputExistsAfter = false then
        (update_job m2 job_id (some JobStatus.FAILED) none
            (some "Output file not created") none now,
          ev2, false)
      else
        (update_job m2 job_id (some JobStatus.COMPLETED) (some 100)
            (some "Export completed") none now,
          ev2, true)

/-- `export_video_ffmpeg` (server.py lines 925-1041). -/
def export_video_ffmpeg (m : JobManager) (job_id : String) (env : ExportEnv)
    (segments : List Segment) (now : ℚ) : JobManager × List ExportEvent × Bool :=
  export_ffmpeg_core "Concatenating segments" m job_id env segments now

/-- `export_audio_ffmpeg` (server.py lines 1044-1152). -/
def export_audio_ffmpeg (m : JobManager) (job_id : String) (env : ExportEnv)
    (segments : List Segment) (now : ℚ) : JobManager × List ExportEvent × Bool :=
  export_ffmpeg_core "Concatenating audio segments" m job_id env segments now

theorem extract_loop_files (env : ExportEnv) (job_id : String) (n : Nat) (now : ℚ) :
    ∀ (segs : List Segment) (i : Nat) (m : JobManager),
      (extract_segments_loop env job_id n now i segs m).2.2
        = (List.range' i segs.length).filter (fun k => segOk env k) := by
  intro segs
  induction segs with
  | nil => intro i m; simp [extract_segments_loop]
  | cons s rest ih =>
    intro i m
    rw [List.length_cons, List.range'_succ]
    by_cases hok : segOk env i
    · simp only [extract_segments_loop, hok, if_true, List.filter_cons]
      simp [hok, ih]
    · simp only [extract_segments_loop, hok, if_false, List.filter_cons]
      simp [hok, ih]

theorem extract_loop_presence (env : ExportEnv) (job_id : String) (n : Nat) (now : ℚ) :
    ∀ (segs : List Segment) (i : Nat) (m : JobManager),
      (get_job m job_id).isSome →
      (get_job (extract_segments_loop env job_id n now i segs m).1 job_id).isSome := by
  intro segs
  induction segs with
  | nil => intro i m hm; simpa [extract_segments_loop] using hm
  | cons s rest ih =>
    intro i m hm
    have hm1 := get_job_update_isSome m job_id none
      (some ((i : ℚ) / (n : ℚ) * 50)) (some (extractMessage i n)) none now hm
    by_cases hok : segOk env i
    · simp only [extract_segments_loop, hok, if_true]
      exact ih (i + 1) _ hm1
    · simp only [extract_segments_loop, hok, if_false]
      exact ih (i + 1) _ hm1

theorem export_core_success (concatMsg : String) (m : JobManager) (job_id : String)
    (env : ExportEnv) (segments : List Segment) (now : ℚ)
    (h : (get_job m job_id).isSome) (hne : segments ≠ [])
    (hidx : successfulIdx env segments.length ≠ [])
    (hc : env.concatReturncode = 0) (hout : env.outputExistsAfter = true) :
    (export_ffmpeg_core concatMsg m job_id env segments now).2.2 = true
    ∧ (get_job (export_ffmpeg_core concatMsg m job_id env segments now).1 job_id).map
        Job.status = some JobStatus.COMPLETED
    ∧ ExportEvent.writeConcat (successfulIdx env segments.length)
        ∈ (export_ffmpeg_core concatMsg m job_id env segments now).2.1 := by
  have hne' : segments.isEmpty = false := by
    rw [Bool.eq_false_iff]
    simpa [List.isEmpty_iff] using hne
  have hfiles : (extract_segments_loop env job_id segments.length now 0 segments m).2.2
      = successfulIdx env segments.length := by
    rw [extract_loop_files env job_id segments.length now segments 0 m, successfulIdx,
      List.range_eq_range']
  have hfe : (extract_segments_loop env job_id segments.length now 0 segments m).2.2.isEmpty
      = false := by
    rw [hfiles, Bool.eq_false_iff]
    simpa [List.isEmpty_iff] using hidx
  have hpres : (get_job (extract_segments_loop env job_id segments.length now 0 segments m).1
      job_id).isSome :=
    extract_loop_presence env job_id segments.length now segments 0 m h
  have hpres2 : (get_job (update_job
      (extract_segments_loop env job_id segments.length now 0 segments m).1
      job_id none (some 60) (some concatMsg) none now) job_id).isSome :=
    get_job_update_isSome _ job_id none (some 60) (some concatMsg) none now hpres
  obtain ⟨j2, hj2⟩ := Option.isSome_iff_exists.mp hpres2
  unfold export_ffmpeg_core
  rw [hne']
  simp only [Bool.false_eq_true, if_false]
  rw [hfe]
  simp only [Bool.false_eq_true, if_false]
  rw [if_neg (by simp [hc] : ¬env.concatReturncode ≠ 0),
    if_neg (by simp [hout] : ¬env.outputExistsAfter = false)]
  refine ⟨by trivial, ?_, ?_⟩
  · rw [get_job_update_self _ job_id j2 hj2 (some JobStatus.COMPLETED) (some 100)
      (some "Export completed") none now]
    rfl
  · rw [hfiles]
    simp

theorem export_core_allfail (concatMsg : String) (m : JobManager) (job_id : String)
    (env : ExportEnv) (segments : List Segment) (now : ℚ)
    (h : (get_job m job_id).isSome) (hne : segments ≠ [])
    (hidx : successfulIdx env segments.length = []) :
    (export_ffmpeg_core concatMsg m job_id env segments now).2.2 = false
    ∧ (get_job (export_ffmpeg_core concatMsg m job_id env segments now).1 job_id).map
        Job.status = some JobStatus.FAILED
    ∧ (get_job (export_ffmpeg_core concatMsg m job_id env segments now).1 job_id).map
        Job.message = some "Failed to extract segments" := by
  have hne' : segments.isEmpty = false := by
    rw [Bool.eq_false_iff]
    simpa [List.isEmpty_iff] using hne
  have hfiles : (extract_segments_loop env job_id segments.length now 0 segments m).2.2
      = successfulIdx env segments.length := by
    rw [extract_loop_files env job_id segments.length now segments 0 m, successfulIdx,
      List.range_eq_range']
  have hfe : (extract_segments_loop env job_id segments.length now 0 segments m).2.2.isEmpty
      = true := by
    rw [hfiles, hidx]
    rfl
  have hpres : (get_job (extract_segments_loop env job_id segments.length now 0 segments m).1
      job_id).isSome :=
    extract_loop_presence env job_id segments.length now segments 0 m h
  obtain ⟨j1, hj1⟩ := Option.isSome_iff_exists.mp hpres
  unfold export_ffmpeg_core
  rw [hne']
  simp only [Bool.false_eq_true, if_false]
  rw [hfe]
  simp only [if_pos]
  refine ⟨by trivial, ?_, ?_⟩
  · rw [get_job_update_self _ job_id j1 hj1 (some JobStatus.FAILED) none
      (some "Failed to extract segments") none now]
    rfl
  · rw [get_job_update_self _ job_id j1 hj1 (some JobStatus.FAILED) none
      (some "Failed to extract segments") none now]
    rfl

/-- Claim C5: during media export (audio or video) a single failed segment
extraction — non-zero encoder exit, or the expected segment file missing
or empty — does not fail the job: the segment is skipped and the export
continues, and when at least one extraction succeeds (and the concat step
and output check succeed) the job ends completed with the concat manifest
listing exactly the successfully extracted segments; the extraction phase
is fatal only when no extraction succeeds at all, in which case the job
ends failed with message "Failed to extract segments". -/
theorem c5_segment_failure_tolerated (m : JobManager) (job_id : String)
    (h : (get_job m job_id).isSome) (env : ExportEnv) (segments : List Segment)
    (hne : segments ≠ []) (now : ℚ) :
    (successfulIdx env segments.length ≠ [] → env.concatReturncode = 0 →
      env.outputExistsAfter = true →
        ((export_video_ffmpeg m job_id env segments now).2.2 = true
        ∧ (get_job (export_video_ffmpeg m job_id env segments now).1 job_id).map
            Job.status = some JobStatus.COMPLETED
        ∧ ExportEvent.writeConcat (successfulIdx env segments.length)
            ∈ (export_video_ffmpeg m job_id env segments now).2.1
        ∧ (export_audio_ffmpeg m job_id env segments now).2.2 = true
        ∧ (get_job (export_audio_ffmpeg m job_id env segments now).1 job_id).map
            Job.status = some JobStatus.COMPLETED
        ∧ ExportEvent.writeConcat (successfulIdx env segments.length)
            ∈ (export_audio_ffmpeg m job_id env segments now).2.1))
    ∧ (successfulIdx env segments.length = [] →
        ((export_video_ffmpeg m job_id env segments now).2.2 = false
        ∧ (get_job (export_video_ffmpeg m job_id env segments now).1 job_id).map
            Job.status = some JobStatus.FAILED
        ∧ (get_job (export_video_ffmpeg m job_id env segments now).1 job_id).map
            Job.message = some "Failed to extract segments"
        ∧ (export_audio_ffmpeg m job_id env segments now).2.2 = false
        ∧ (get_job (export_audio_ffmpeg m job_id env segments now).1 job_id).map
            Job.status = some JobStatus.FAILED
        ∧ (get_job (export_audio_ffmpeg m job_id env segments now).1 job_id).map
            Job.message = some "Failed to extract segments")) := by
  constructor
  · intro hidx hc hout
    obtain ⟨v1, v2, v3⟩ := export_core_success "Concatenating segments" m job_id env
      segments now h hne hidx hc hout
    obtain ⟨a1, a2, a3⟩ := export_core_success "Concatenating audio segments" m job_id env
      segments now h hne hidx hc hout
    exact ⟨v1, v2, v3, a1, a2, a3⟩
  · intro hidx
    obtain ⟨v1, v2, v3⟩ := export_core_allfail "Concatenating segments" m job_id env
      segments now h hne hidx
    obtain ⟨a1, a2, a3⟩ := export_core_allfail "Concatenating audio segments" m job_id env
      segments now h hne hidx
    exact ⟨v1, v2, v3, a1, a2, a3⟩

/-- The C5 scenario environment: extraction of segment 0 exits 1, segment 1
succeeds, concatenation succeeds and the output file appears. -/
def c5DemoEnv : ExportEnv :=
  { segOutcomes := fun i =>
      if i = 0 then { returncode := 1, fileExists := false, fileSize := 0 }
      else { returncode := 0, fileExists := true, fileSize := 2048 },
    concatReturncode := 0,
    outputExistsBefore := false,
    outputExistsAfter := true }

/-- Witness for C5: two segments, the first extraction fails, the job still
ends completed and the manifest holds only segment 1. -/
theorem c5_witness :
    (export_video_ffmpeg (create_job initManager "e" "export" "demo" 0) "e" c5DemoEnv
        [⟨0, 1⟩, ⟨2, 4⟩] 1).2.2 = true
    ∧ (get_job (export_video_ffmpeg (create_job initManager "e" "export" "demo" 0) "e"
        c5DemoEnv [⟨0, 1⟩, ⟨2, 4⟩] 1).1 "e").map Job.status = some JobStatus.COMPLETED
    ∧ ExportEvent.writeConcat [1]
        ∈ (export_video_ffmpeg (create_job initManager "e" "export" "demo" 0) "e"
            c5DemoEnv [⟨0, 1⟩, ⟨2, 4⟩] 1).2.1 := by
  have h := (c5_segment_failure_tolerated (create_job initManager "e" "export" "demo" 0)
      "e" (by decide) c5DemoEnv [⟨0, 1⟩, ⟨2, 4⟩] (by decide) 1).1
      (by decide) rfl rfl
  have hsidx : successfulIdx c5DemoEnv ([⟨0, 1⟩, ⟨2, 4⟩] : List Segment).length = [1] := by
    decide
  have h3 := h.2.2.1
  rw [hsidx] at h3
  exact ⟨h.1, h.2.1, h3⟩

/-- Claim C6: media export (audio or video) with an empty segments list
immediately fails the job with the nothing-to-export message and returns
False with an empty effect trace: the output path is neither created nor
removed, no temporary directory is made, and no encoder process is
spawned. -/
theorem c6_empty_segments_no_io (m : JobManager) (job_id : String) (env : ExportEnv)
    (now : ℚ) :
    export_video_ffmpeg m job_id env [] now
      = (update_job m job_id (some JobStatus.FAILED) none
          (some "No segments to export") none now, [], false)
    ∧ export_audio_ffmpeg m job_id env [] now
      = (update_job m job_id (some JobStatus.FAILED) none
          (some "No segments to export") none now, [], false)
    ∧ ((get_job m job_id).isSome →
        ((get_job (export_video_ffmpeg m job_id env [] now).1 job_id).map Job.status
            = some JobStatus.FAILED
        ∧ (get_job (export_video_ffmpeg m job_id env [] now).1 job_id).map Job.message
            = some "No segments to export"
        ∧ (get_job (export_audio_ffmpeg m job_id env [] now).1 job_id).map Job.status
            = some JobStatus.FAILED
        ∧ (get_job (export_audio_ffmpeg m job_id env [] now).1 job_id).map Job.message
            = some "No segments to export")) := by
  have hv : export_video_ffmpeg m job_id env [] now
      = (update_job m job_id (some JobStatus.FAILED) none
          (some "No segments to export") none now, [], false) := rfl
  have ha : export_audio_ffmpeg m job_id env [] now
      = (update_job m job_id (some JobStatus.FAILED) none
          (some "No segments to export") none now, [], false) := rfl
  refine ⟨hv, ha, fun hpres => ?_⟩
  obtain ⟨j, hj⟩ := Option.isSome_iff_exists.mp hpres
  have hget := get_job_update_self m job_id j hj (some JobStatus.FAILED) none
    (some "No segments to export") none now
  refine ⟨?_, ?_, ?_, ?_⟩
  · rw [hv]; rw [hget]; rfl
  · rw [hv]; rw [hget]; rfl
  · rw [ha]; rw [hget]; rfl
  · rw [ha]; rw [hget]; rfl

/-- Witness for C6. -/
theorem c6_witness :
    (export_video_ffmpeg (create_job initManager "f" "export" "demo" 0) "f" c5DemoEnv
        [] 1).2.1 = []
    ∧ (export_video_ffmpeg (create_job initManager "f" "export" "demo" 0) "f" c5DemoEnv
        [] 1).2.2 = false
    ∧ (get_job (export_video_ffmpeg (create_job initManager "f" "export" "demo" 0) "f"
        c5DemoEnv [] 1).1 "f").map Job.status = some JobStatus.FAILED := by
  have h := c6_empty_segments_no_io (create_job initManager "f" "export" "demo" 0) "f"
    c5DemoEnv 1
  exact ⟨by rw [h.1], by rw [h.1], (h.2.2 (by decide)).1⟩

end Podfree
